/-
Verification of the membership-dashboard ingestion engine
(src/utils/scan_lists.py and src/utils/retention.py) against its
natural-language specification.

The Python code is shallowly embedded: pandas Series/DataFrame column
operations become per-row functions over explicit record structures,
missing values (NaN/NaT) become Option, and raising code returns Except.
-/
import Mathlib

/-- A calendar date as carried by a parsed pandas datetime value
(year, month, day; times are always midnight in this data). -/
structure Date where
  year : Int
  month : Int
  day : Int
deriving DecidableEq, Repr

/-- The sentinel expiration date 2099-11-01 that the source data uses to
mean a lifetime membership. -/
def sentinel_date : Date := ⟨2099, 11, 1⟩

/-- `membership_length_months` from scan_lists.py:
`12 * (xdate.dt.year - join_date.dt.year) + (xdate.dt.month - join_date.dt.month)`,
embedded per row. -/
def membership_length_months (join_date xdate : Date) : Int :=
  12 * (xdate.year - join_date.year) + (xdate.month - join_date.month)

/-- `membership_length_years` from scan_lists.py:
`membership_length_months(join_date, xdate) // 12`.  Python `//` is floor
division, which on `Int` is `Int.fdiv`. -/
def membership_length_years (join_date xdate : Date) : Int :=
  (membership_length_months join_date xdate).fdiv 12

/-- One raw cell of a date column as it arrives from the CSV: a missing
value (pandas NaN), a value that parses as a date, or unparseable text. -/
inductive Cell where
  | missing
  | date (d : Date)
  | text (s : String)
deriving DecidableEq, Repr

/-- `pd.to_datetime(col, format="mixed")` on one cell: missing values map
to NaT (here `none`) without error, parseable strings to the parsed date,
and unparseable text raises ValueError. -/
def to_datetime : Cell → Except String (Option Date)
  | Cell.missing => Except.ok none
  | Cell.date d => Except.ok (some d)
  | Cell.text s => Except.error ("ValueError: could not parse " ++ s)

/-- Elementwise `Series.replace(old, val)`: a cell equal to `old` becomes
`val`, everything else is untouched. -/
def pyReplaceVal (s old val : String) : String :=
  if s = old then val else s

/-- Python `str.lower()` on the ASCII data of this repository: lowercase
each character. -/
def pyLower (s : String) : String :=
  String.mk (s.data.map Char.toLower)

/-- Python `str.zfill(width)`: left-pad with zeros to `width`, keeping a
leading sign character in front of the padding. -/
def zfill (width : Nat) (s : String) : String :=
  if width ≤ s.length then s
  else
    match s.data with
    | '-' :: rest => String.mk ('-' :: (List.replicate (width - s.length) '0' ++ rest))
    | '+' :: rest => String.mk ('+' :: (List.replicate (width - s.length) '0' ++ rest))
    | l => String.mk (List.replicate (width - s.length) '0' ++ l)

/-- `format_zip_code` from scan_lists.py: `str(zip_code).zfill(5)` on a
string-typed zip column. -/
def format_zip_code (zip_code : String) : String :=
  zfill 5 zip_code

/-- The fields of one raw membership-list row that the date, type and zip
cleaning steps of `data_cleaning` read. -/
structure RawRow where
  join_date : Cell
  xdate : Cell
  membership_type : String
  membership_status : String
  zip : String
deriving DecidableEq, Repr

/-- The corresponding fields of a normalized row. -/
structure CleanRow where
  join_date : Option Date
  xdate : Option Date
  membership_length_months : Option Int
  membership_length_years : Option Int
  membership_type : String
  membership_status : String
  zip : String
deriving DecidableEq, Repr

/-- The row-level content of `data_cleaning` from scan_lists.py
(lines 107, 116-128), embedding the pandas column pipeline per row:
`pd.to_datetime(..., format="mixed")` on both date columns (NaN → NaT,
bad text → ValueError), `membership_length_months` and
`df.membership_length_months // 12` with NaN propagation,
`membership_status.replace("expired","lapsed").str.lower()`,
`membership_type.replace("annual","yearly").str.lower()` followed by
`.where(df.xdate != "2099-11-01", "lifetime")`, and
`zip.apply(format_zip_code)`. -/
def data_cleaning_row (r : RawRow) : Except String CleanRow := do
  let jd ← to_datetime r.join_date
  let xd ← to_datetime r.xdate
  let months : Option Int :=
    match jd, xd with
    | some j, some x => some (membership_length_months j x)
    | _, _ => none
  let years : Option Int := months.map (fun m => m.fdiv 12)
  let status := pyLower (pyReplaceVal r.membership_status "expired" "lapsed")
  let mtype0 := pyLower (pyReplaceVal r.membership_type "annual" "yearly")
  let mtype := if xd = some sentinel_date then "lifetime" else mtype0
  Except.ok
    { join_date := jd
      xdate := xd
      membership_length_months := months
      membership_length_years := years
      membership_type := mtype
      membership_status := status
      zip := format_zip_code r.zip }

/-- C2: the month count is exactly `12*(Δyear) + Δmonth`, the year count is
its floor division by 12, these are the values `data_cleaning` stores, and
the two regression cases hold: a 23-month membership reports 1 year, and
join 1982-06-01 with xdate 2023-01-01 reports 40 years. -/
theorem C2_membership_length (r : RawRow) (j x : Date) (cr : CleanRow)
    (hj : r.join_date = Cell.date j) (hx : r.xdate = Cell.date x)
    (hc : data_cleaning_row r = Except.ok cr) :
    membership_length_months j x = 12 * (x.year - j.year) + (x.month - j.month) ∧
    membership_length_years j x = (membership_length_months j x).fdiv 12 ∧
    cr.membership_length_months = some (membership_length_months j x) ∧
    cr.membership_length_years = some (membership_length_years j x) ∧
    membership_length_months ⟨2021, 2, 1⟩ ⟨2023, 1, 1⟩ = 23 ∧
    membership_length_years ⟨2021, 2, 1⟩ ⟨2023, 1, 1⟩ = 1 ∧
    membership_length_years ⟨1982, 6, 1⟩ ⟨2023, 1, 1⟩ = 40 := by
  simp only [data_cleaning_row, hj, hx, to_datetime, bind, Except.bind, pure,
    Except.ok.injEq] at hc
  subst hc
  refine ⟨rfl, rfl, rfl, ?_, by decide, by decide, by decide⟩
  simp [membership_length_years, Option.map]

/-- The regression row: joined 1982-06-01, expiring 2023-01-01. -/
def c2_row : RawRow :=
  { join_date := Cell.date ⟨1982, 6, 1⟩, xdate := Cell.date ⟨2023, 1, 1⟩,
    membership_type := "annual", membership_status := "expired", zip := "4011" }

/-- The normalized row produced from `c2_row`. -/
def c2_clean : CleanRow :=
  { join_date := some ⟨1982, 6, 1⟩, xdate := some ⟨2023, 1, 1⟩,
    membership_length_months := some 487, membership_length_years := some 40,
    membership_type := "yearly", membership_status := "lapsed", zip := "04011" }

/-- Witness for C2 at the concrete regression row. -/
theorem C2_membership_length_witness :
    data_cleaning_row c2_row = Except.ok c2_clean ∧
    c2_clean.membership_length_years = some 40 := by
  have h1 : data_cleaning_row c2_row = Except.ok c2_clean := by rfl
  refine ⟨h1, ?_⟩
  have h := C2_membership_length c2_row ⟨1982, 6, 1⟩ ⟨2023, 1, 1⟩ c2_clean rfl rfl h1
  rw [h.2.2.2.1, h.2.2.2.2.2.2]

/-- A row whose source membership_type is already "lifetime" but whose
expiration date is an ordinary future date, not the sentinel. -/
def c3_row : RawRow :=
  { join_date := Cell.date ⟨2020, 1, 1⟩, xdate := Cell.date ⟨2050, 1, 1⟩,
    membership_type := "lifetime", membership_status := "member", zip := "04101" }

/-- The normalized row produced from `c3_row`. -/
def c3_clean : CleanRow :=
  { join_date := some ⟨2020, 1, 1⟩, xdate := some ⟨2050, 1, 1⟩,
    membership_length_months := some 360, membership_length_years := some 30,
    membership_type := "lifetime", membership_status := "member", zip := "04101" }

/-- C3 counterexample: `data_cleaning` leaves a source-provided
membership_type of "lifetime" in place even though the xdate is not the
sentinel date, so "membership_type = lifetime only if xdate = sentinel"
fails. -/
theorem C3_lifetime_iff_counterexample :
    data_cleaning_row c3_row = Except.ok c3_clean ∧
    c3_clean.membership_type = "lifetime" ∧
    c3_clean.xdate ≠ some sentinel_date := by
  refine ⟨by rfl, rfl, by decide⟩

/-- C3 amended: when xdate equals the sentinel date 2099-11-01,
membership_type is overridden to "lifetime" regardless of the source value;
when xdate differs from the sentinel, membership_type is the normalized
source value ("annual" replaced by "yearly", then lowercased), which can
itself be "lifetime". -/
theorem C3_lifetime_sentinel (r : RawRow) (cr : CleanRow)
    (hc : data_cleaning_row r = Except.ok cr) :
    (cr.xdate = some sentinel_date → cr.membership_type = "lifetime") ∧
    (cr.xdate ≠ some sentinel_date →
      cr.membership_type = pyLower (pyReplaceVal r.membership_type "annual" "yearly")) := by
  cases hj : r.join_date <;> cases hx : r.xdate <;>
    simp [data_cleaning_row, hj, hx, to_datetime, bind, Except.bind, pure] at hc <;>
    subst hc <;>
    constructor <;> intro h
  all_goals simp_all

/-- A row carrying the sentinel xdate and a source membership_type of
"monthly". -/
def c3w_row : RawRow :=
  { join_date := Cell.date ⟨2020, 1, 1⟩, xdate := Cell.date sentinel_date,
    membership_type := "monthly", membership_status := "member", zip := "04101" }

/-- The normalized row produced from `c3w_row`: the type is overridden. -/
def c3w_clean : CleanRow :=
  { join_date := some ⟨2020, 1, 1⟩, xdate := some sentinel_date,
    membership_length_months := some 958, membership_length_years := some 79,
    membership_type := "lifetime", membership_status := "member", zip := "04101" }

/-- Witness for C3 at a row carrying the sentinel xdate and a source
membership_type of "monthly": the output type is "lifetime". -/
theorem C3_lifetime_sentinel_witness :
    data_cleaning_row c3w_row = Except.ok c3w_clean ∧
    c3w_clean.membership_type = "lifetime" := by
  refine ⟨by rfl, ?_⟩
  exact (C3_lifetime_sentinel c3w_row c3w_clean (by rfl)).1 rfl

/-- A row whose join_date value is missing (pandas NaN). -/
def c4_row : RawRow :=
  { join_date := Cell.missing, xdate := Cell.date ⟨2025, 1, 1⟩,
    membership_type := "yearly", membership_status := "member", zip := "04101" }

/-- The normalized row produced from `c4_row`: no error, NaT/NaN markers. -/
def c4_clean : CleanRow :=
  { join_date := none, xdate := some ⟨2025, 1, 1⟩,
    membership_length_months := none, membership_length_years := none,
    membership_type := "yearly", membership_status := "member", zip := "04101" }

/-- C4 counterexample: a row with a missing join_date is normalized
without any error — `pd.to_datetime` silently maps the missing value to
NaT — contradicting the claim that normalization fails hard. -/
theorem C4_missing_date_counterexample :
    c4_row.join_date = Cell.missing ∧
    data_cleaning_row c4_row = Except.ok c4_clean := by
  exact ⟨rfl, by rfl⟩

/-- C4 amended: a missing join_date is not an error: as long as the xdate
cell is not unparseable text, `data_cleaning` succeeds and stores the
missing marker (NaT/NaN) for join_date and for both derived length
fields; only unparseable non-missing text raises. -/
theorem C4_missing_date_silent (r : RawRow)
    (hj : r.join_date = Cell.missing) (hx : ∀ s, r.xdate ≠ Cell.text s) :
    ∃ cr : CleanRow, data_cleaning_row r = Except.ok cr ∧
      cr.join_date = none ∧
      cr.membership_length_months = none ∧
      cr.membership_length_years = none := by
  cases hxv : r.xdate with
  | text s => exact absurd hxv (hx s)
  | missing =>
      refine ⟨{ join_date := none, xdate := none, membership_length_months := none,
                membership_length_years := none,
                membership_type := pyLower (pyReplaceVal r.membership_type "annual" "yearly"),
                membership_status := pyLower (pyReplaceVal r.membership_status "expired" "lapsed"),
                zip := format_zip_code r.zip }, ?_, rfl, rfl, rfl⟩
      simp [data_cleaning_row, hj, hxv, to_datetime, bind, Except.bind, pure]
  | date d =>
      refine ⟨{ join_date := none, xdate := some d, membership_length_months := none,
                membership_length_years := none,
                membership_type :=
                  if d = sentinel_date then "lifetime"
                  else pyLower (pyReplaceVal r.membership_type "annual" "yearly"),
                membership_status := pyLower (pyReplaceVal r.membership_status "expired" "lapsed"),
                zip := format_zip_code r.zip }, ?_, rfl, rfl, rfl⟩
      simp [data_cleaning_row, hj, hxv, to_datetime, bind, Except.bind, pure]

/-- Witness for C4 at the concrete missing-join_date row. -/
theorem C4_missing_date_silent_witness :
    (data_cleaning_row c4_row).isOk = true ∧
    c4_clean.membership_length_months = none := by
  obtain ⟨cr, hok, h1, h2, h3⟩ :=
    C4_missing_date_silent c4_row rfl (fun s h => by simp [c4_row] at h)
  exact ⟨by rw [hok]; rfl, rfl⟩

/-- A row whose expiration date precedes its join date. -/
def c8_row : RawRow :=
  { join_date := Cell.date ⟨2023, 5, 1⟩, xdate := Cell.date ⟨2023, 1, 1⟩,
    membership_type := "yearly", membership_status := "member", zip := "04101" }

/-- The normalized row produced from `c8_row`: a negative tenure. -/
def c8_clean : CleanRow :=
  { join_date := some ⟨2023, 5, 1⟩, xdate := some ⟨2023, 1, 1⟩,
    membership_length_months := some (-4), membership_length_years := some (-1),
    membership_type := "yearly", membership_status := "member", zip := "04101" }

/-- C8 counterexample: when xdate lies before join_date both dates parse,
yet the derived membership_length_months is negative (-4), so the claimed
unconditional invariant membership_length ≥ 0 fails. -/
theorem C8_nonneg_counterexample :
    data_cleaning_row c8_row = Except.ok c8_clean ∧
    c8_clean.membership_length_months = some (-4) ∧
    c8_clean.membership_length_years = some (-1) ∧
    (-4 : Int) < 0 := by
  exact ⟨by rfl, rfl, rfl, by decide⟩

/-- C8 amended: the derived length fields are nonnegative provided the
xdate does not precede the join_date at month granularity
(12*year + month ordering); without that proviso they can be negative. -/
theorem C8_nonneg_of_ordered (r : RawRow) (j x : Date) (cr : CleanRow)
    (hj : r.join_date = Cell.date j) (hx : r.xdate = Cell.date x)
    (hc : data_cleaning_row r = Except.ok cr)
    (hord : 12 * j.year + j.month ≤ 12 * x.year + x.month) :
    0 ≤ membership_length_months j x ∧
    0 ≤ membership_length_years j x ∧
    cr.membership_length_months = some (membership_length_months j x) ∧
    cr.membership_length_years = some (membership_length_years j x) := by
  have hm : 0 ≤ membership_length_months j x := by
    simp only [membership_length_months]
    omega
  simp only [data_cleaning_row, hj, hx, to_datetime, bind, Except.bind, pure,
    Except.ok.injEq] at hc
  subst hc
  refine ⟨hm, Int.fdiv_nonneg hm (by norm_num), rfl, ?_⟩
  simp [membership_length_years, Option.map]

/-- Witness for C8 at a row joining 1982-06-01 and expiring 2023-01-01:
both derived lengths are nonnegative. -/
theorem C8_nonneg_of_ordered_witness :
    0 ≤ membership_length_months ⟨1982, 6, 1⟩ ⟨2023, 1, 1⟩ ∧
    0 ≤ membership_length_years ⟨1982, 6, 1⟩ ⟨2023, 1, 1⟩ := by
  have h := C8_nonneg_of_ordered
    { join_date := Cell.date ⟨1982, 6, 1⟩, xdate := Cell.date ⟨2023, 1, 1⟩,
      membership_type := "monthly", membership_status := "member", zip := "04101" }
    ⟨1982, 6, 1⟩ ⟨2023, 1, 1⟩
    { join_date := some ⟨1982, 6, 1⟩, xdate := some ⟨2023, 1, 1⟩,
      membership_length_months := some 487, membership_length_years := some 40,
      membership_type := "monthly", membership_status := "member", zip := "04101" }
    rfl rfl (by rfl) (by decide)
  exact ⟨h.1, h.2.1⟩

/-- Python `s.split("-")[0]`: the part of the string before the first
dash (the whole string when there is no dash). -/
def predash (s : String) : String :=
  String.mk (s.data.takeWhile (fun c => c ≠ '-'))

/-- First-match lookup in an association list, the model of indexing a
key-unique pandas index / Python dict. -/
def dictLookup {κ : Type _} [DecidableEq κ] {α : Type _} :
    List (κ × α) → κ → Option α
  | [], _ => none
  | (k, v) :: rest, key => if k = key then some v else dictLookup rest key

/-- `branch_name_from_zip` from scan_lists.py:
`cleaned_zip_code = format_zip_code(zip_code).split("-")[0]`, then
`branch_zips.loc[cleaned_zip_code, "branch"]` when the cleaned code is in
the index and `""` otherwise.  The branch_zips dataframe (zip-indexed,
one "branch" column) is an association list. -/
def branch_name_from_zip (zip_code : String) (branch_zips : List (String × String)) : String :=
  let cleaned_zip_code := predash (format_zip_code zip_code)
  match dictLookup branch_zips cleaned_zip_code with
  | some b => b
  | none => ""

/-- C5 counterexample: the code zero-pads before stripping the suffix, so
the short zip "1-1234" is looked up as "1", not as its zero-padded bare
prefix "00001"; it therefore does not tag identically to the bare zip "1". -/
theorem C5_branch_zip_counterexample :
    branch_name_from_zip "1-1234" [("00001", "Subbranch")] = "" ∧
    branch_name_from_zip "1" [("00001", "Subbranch")] = "Subbranch" ∧
    ("" : String) ≠ "Subbranch" := by
  refine ⟨by rfl, by rfl, by decide⟩

/-- C5 amended: `branch_name_from_zip` zero-pads first and then strips
everything from the first dash.  Whenever the pre-dash prefix has at
least 5 characters (every real 5-digit zip, with or without a plus-four
suffix), a suffixed zip tags identically to its bare prefix; and a
cleaned code absent from the lookup always yields the empty string,
never an error. -/
theorem C5_branch_zip_order (z : String) (t : List (String × String))
    (h5 : 5 ≤ (predash z).length) :
    branch_name_from_zip z t = branch_name_from_zip (predash z) t ∧
    (dictLookup t (predash (format_zip_code z)) = none → branch_name_from_zip z t = "") := by
  have hlen : (predash z).length ≤ z.length :=
    (List.takeWhile_sublist (fun c => c ≠ '-')).length_le
  have hz : format_zip_code z = z := by
    unfold format_zip_code zfill
    rw [if_pos (le_trans h5 hlen)]
  have hp : format_zip_code (predash z) = predash z := by
    unfold format_zip_code zfill
    rw [if_pos h5]
  have hpp : predash (predash z) = predash z := by
    simp [predash, List.takeWhile_idem]
  constructor
  · simp only [branch_name_from_zip, hz, hp, hpp]
  · intro hnone
    simp only [branch_name_from_zip, hnone]

/-- Witness for C5 at "04011-1234" against a one-row branch table. -/
theorem C5_branch_zip_order_witness :
    branch_name_from_zip "04011-1234" [("04011", "Brunswick")] =
      branch_name_from_zip "04011" [("04011", "Brunswick")] ∧
    branch_name_from_zip "04011" [("04011", "Brunswick")] = "Brunswick" := by
  have h := C5_branch_zip_order "04011-1234" [("04011", "Brunswick")] (by decide)
  have hpre : predash "04011-1234" = "04011" := by decide
  exact ⟨by rw [h.1, hpre], by rfl⟩

/-- The model of `response.geojson()` for a Mapbox forward-geocoding
response: either the JSON has no "features" key, or it has one holding a
list of features, each feature represented by its "center" coordinate
pair (coordinates kept abstract as integers). -/
inductive GeoResponse where
  | noFeatures
  | features (fs : List (List Int))
deriving DecidableEq, Repr

/-- `mapbox_geocoder` from scan_lists.py: return `[0, 0]` when the
geojson has no "features" key, otherwise `features[0]["center"]` — which
raises IndexError when the features list is present but empty. -/
def mapbox_geocoder (resp : GeoResponse) : Except String (List Int) :=
  match resp with
  | GeoResponse.noFeatures => Except.ok [0, 0]
  | GeoResponse.features [] => Except.error "IndexError: list index out of range"
  | GeoResponse.features (f :: _) => Except.ok f

/-- `get_geocoding` from scan_lists.py: short-circuit to the sentinel
`[0, 0]` when the address is not a string (modelled `none`) or no MAPBOX
key is configured, otherwise call `mapbox_geocoder` on the external
response.  The Bool records whether the external call was issued. -/
def get_geocoding (hasMapboxToken : Bool) (address : Option String)
    (resp : GeoResponse) : Except String (List Int) × Bool :=
  if address.isNone || !hasMapboxToken then (Except.ok [0, 0], false)
  else (mapbox_geocoder resp, true)

/-- C9 counterexample: with credentials configured and a string address,
a response carrying a present-but-empty "features" list makes the
resolver raise IndexError instead of returning the sentinel, so
"get_geocoding never raises" fails. -/
theorem C9_geocoding_counterexample :
    (get_geocoding true (some "123 Main St, Portland, ME 04101")
        (GeoResponse.features [])).1 =
      Except.error "IndexError: list index out of range" := by
  rfl

/-- C9 amended: non-string addresses and missing credentials
short-circuit to the sentinel `[0, 0]` with no external call; when a call
is made, a response lacking the "features" key yields the sentinel and a
nonempty features list yields its first center — only a present-but-empty
features list raises. -/
theorem C9_geocoding_sentinel (tok : Bool) (addr : Option String) (resp : GeoResponse) :
    (addr = none → get_geocoding tok addr resp = (Except.ok [0, 0], false)) ∧
    (tok = false → get_geocoding tok addr resp = (Except.ok [0, 0], false)) ∧
    (resp ≠ GeoResponse.features [] →
      ∃ v, (get_geocoding tok addr resp).1 = Except.ok v) ∧
    (resp = GeoResponse.noFeatures →
      (get_geocoding tok addr resp).1 = Except.ok [0, 0]) := by
  refine ⟨?_, ?_, ?_, ?_⟩
  · intro h; subst h; rfl
  · intro h; subst h; simp [get_geocoding]
  · intro h
    unfold get_geocoding
    by_cases hs : addr.isNone || !tok
    · exact ⟨[0, 0], by rw [if_pos hs]⟩
    · rw [if_neg hs]
      match resp, h with
      | GeoResponse.noFeatures, _ => exact ⟨[0, 0], rfl⟩
      | GeoResponse.features (f :: fs), _ => exact ⟨f, rfl⟩
      | GeoResponse.features [], h => exact absurd rfl h
  · intro h; subst h
    unfold get_geocoding
    by_cases hs : addr.isNone || !tok
    · rw [if_pos hs]
    · rw [if_neg hs]; rfl

/-- Witness for C9: no credentials configured, so even an empty-features
response returns the sentinel without a call. -/
theorem C9_geocoding_sentinel_witness :
    get_geocoding false (some "123 Main St, Portland, ME 04101")
      (GeoResponse.features []) = (Except.ok [0, 0], false) :=
  (C9_geocoding_sentinel false (some "123 Main St, Portland, ME 04101")
    (GeoResponse.features [])).2.1 rfl

/-- Keys absent everywhere: `dictLookup` is `none` iff no pair carries the
key. -/
theorem dictLookup_eq_none_iff {κ : Type _} [DecidableEq κ] {α : Type _} (l : List (κ × α)) (key : κ) :
    dictLookup l key = none ↔ ∀ kv ∈ l, kv.1 ≠ key := by
  induction l with
  | nil => simp [dictLookup]
  | cons hd tl ih =>
      by_cases h : hd.1 = key
      · simp [dictLookup, h]
      · simp only [dictLookup, if_neg h, ih, List.mem_cons]
        constructor
        · intro hall kv hkv
          rcases hkv with rfl | hkv
          · exact h
          · exact hall kv hkv
        · intro hall kv hkv
          exact hall kv (Or.inr hkv)

/-- A successful `dictLookup` exhibits a member. -/
theorem dictLookup_some_mem {κ : Type _} [DecidableEq κ] {α : Type _} {l : List (κ × α)} {key : κ} {v : α}
    (h : dictLookup l key = some v) : (key, v) ∈ l := by
  induction l with
  | nil => simp [dictLookup] at h
  | cons hd tl ih =>
      by_cases hk : hd.1 = key
      · simp only [dictLookup, if_pos hk, Option.some.injEq] at h
        subst h
        rw [← hk]
        exact List.mem_cons_self _ _
      · simp only [dictLookup, if_neg hk] at h
        exact List.mem_cons_of_mem _ (ih h)

/-- With key-unique pairs, membership determines the lookup result. -/
theorem dictLookup_of_mem_nodup {κ : Type _} [DecidableEq κ] {α : Type _} {l : List (κ × α)} {key : κ} {v : α}
    (hmem : (key, v) ∈ l) (hnd : (l.map Prod.fst).Nodup) : dictLookup l key = some v := by
  induction l with
  | nil => simp at hmem
  | cons hd tl ih =>
      simp only [List.map_cons, List.nodup_cons] at hnd
      rcases List.mem_cons.mp hmem with heq | hmem2
      · subst heq
        simp [dictLookup]
      · have hne : hd.1 ≠ key := by
          intro hk
          exact hnd.1 (hk ▸ (List.mem_map_of_mem Prod.fst hmem2))
        simp only [dictLookup, if_neg hne]
        exact ih hmem2 hnd.2

/-- Lookup in an append skips a first block that lacks the key. -/
theorem dictLookup_append_of_none {κ : Type _} [DecidableEq κ] {α : Type _} {l1 : List (κ × α)}
    (l2 : List (κ × α)) {key : κ} (h : dictLookup l1 key = none) :
    dictLookup (l1 ++ l2) key = dictLookup l2 key := by
  induction l1 with
  | nil => simp
  | cons hd tl ih =>
      by_cases hk : hd.1 = key
      · simp [dictLookup, if_pos hk] at h
      · simp only [dictLookup, if_neg hk] at h
        simp only [List.cons_append, dictLookup, if_neg hk]
        exact ih h

/-- Filtering with a predicate that keeps every pair carrying the key does
not change the lookup result. -/
theorem dictLookup_filter_keep {κ : Type _} [DecidableEq κ] {α : Type _} {l : List (κ × α)} {key : κ}
    {p : κ × α → Bool} (h : ∀ kv ∈ l, kv.1 = key → p kv = true) :
    dictLookup (l.filter p) key = dictLookup l key := by
  induction l with
  | nil => simp
  | cons hd tl ih =>
      have ih2 := ih (fun kv hkv => h kv (List.mem_cons_of_mem _ hkv))
      by_cases hk : hd.1 = key
      · rw [List.filter_cons, if_pos (h hd (List.mem_cons_self _ _) hk)]
        simp [dictLookup, if_pos hk]
      · rw [List.filter_cons]
        by_cases hp : p hd = true
        · rw [if_pos hp]
          simp only [dictLookup, if_neg hk]
          exact ih2
        · rw [if_neg hp]
          simp only [dictLookup, if_neg hk]
          exact ih2

/-- Lexicographic comparison of character lists by code point: the model
of Python string `<=`, used by `sorted()` over archive paths and date
keys. -/
def charListLe : List Char → List Char → Bool
  | [], _ => true
  | _ :: _, [] => false
  | a :: as, b :: bs =>
      if a < b then true else if a = b then charListLe as bs else false

/-- `charListLe` is total. -/
theorem charListLe_total : ∀ a b : List Char,
    charListLe a b = true ∨ charListLe b a = true
  | [], _ => Or.inl rfl
  | _ :: _, [] => Or.inr rfl
  | a :: as, b :: bs => by
      by_cases h1 : a < b
      · left
        simp [charListLe, h1]
      · by_cases h2 : a = b
        · subst h2
          rcases charListLe_total as bs with h | h
          · left
            simp [charListLe, h1, h]
          · right
            simp [charListLe, h1, h]
        · have h3 : b < a := by
            rcases lt_trichotomy a b with h | h | h
            · exact absurd h h1
            · exact absurd h h2
            · exact h
          right
          simp [charListLe, h3]

/-- `charListLe` is transitive. -/
theorem charListLe_trans : ∀ {a b c : List Char},
    charListLe a b = true → charListLe b c = true → charListLe a c = true
  | [], _, _, _, _ => rfl
  | _ :: _, [], _, h1, _ => by simp [charListLe] at h1
  | _ :: _, _ :: _, [], _, h2 => by simp [charListLe] at h2
  | a :: as, b :: bs, c :: cs, h1, h2 => by
      simp only [charListLe] at h1 h2 ⊢
      by_cases hab : a < b
      · by_cases hbc : b < c
        · rw [if_pos (lt_trans hab hbc)]
        · rw [if_neg hbc] at h2
          by_cases hbc2 : b = c
          · rw [if_pos (hbc2 ▸ hab)]
          · rw [if_neg hbc2] at h2
            exact absurd h2 Bool.false_ne_true
      · rw [if_neg hab] at h1
        by_cases hab2 : a = b
        · rw [if_pos hab2] at h1
          subst hab2
          by_cases hac : a < c
          · rw [if_pos hac]
          · rw [if_neg hac] at h2 ⊢
            by_cases hac2 : a = c
            · rw [if_pos hac2] at h2 ⊢
              exact charListLe_trans h1 h2
            · rw [if_neg hac2] at h2
              exact absurd h2 Bool.false_ne_true
        · rw [if_neg hab2] at h1
          exact absurd h1 Bool.false_ne_true

/-- `charListLe` is antisymmetric. -/
theorem charListLe_antisymm : ∀ {a b : List Char},
    charListLe a b = true → charListLe b a = true → a = b
  | [], [], _, _ => rfl
  | [], _ :: _, _, h2 => by simp [charListLe] at h2
  | _ :: _, [], h1, _ => by simp [charListLe] at h1
  | a :: as, b :: bs, h1, h2 => by
      simp only [charListLe] at h1 h2
      by_cases hab : a < b
      · rw [if_neg (lt_asymm hab)] at h2
        rw [if_neg (fun he : b = a => absurd (he ▸ hab) (lt_irrefl _))] at h2
        exact absurd h2 Bool.false_ne_true
      · rw [if_neg hab] at h1
        by_cases habe : a = b
        · subst habe
          rw [if_pos rfl] at h1
          rw [if_neg hab, if_pos rfl] at h2
          rw [charListLe_antisymm h1 h2]
        · rw [if_neg habe] at h1
          exact absurd h1 Bool.false_ne_true

/-- Python string `<=`: code-point lexicographic order on the characters. -/
def pathLe (a b : String) : Bool := charListLe a.data b.data

/-- The descending-by-key ordering used by
`sorted(..., reverse=True)` on `(key, value)` pairs. -/
def keyDescRel {α : Type _} (a b : String × α) : Prop :=
  pathLe b.1 a.1 = true

instance {α : Type _} : DecidableRel (@keyDescRel α) :=
  fun _ _ => instDecidableEqBool _ _

instance {α : Type _} : IsTotal (String × α) keyDescRel :=
  ⟨fun a b => charListLe_total b.1.data a.1.data⟩

instance {α : Type _} : IsTrans (String × α) keyDescRel :=
  ⟨fun _ _ _ h1 h2 => charListLe_trans h2 h1⟩

/-- Python `dict` union `a | b` on key-unique association lists: the keys
of `a` in their order, each bound to `b`'s value when `b` also has the
key, followed by the keys of `b` not in `a`, in `b`'s order. -/
def pyDictUnion {α : Type _} (a b : List (String × α)) : List (String × α) :=
  a.map (fun kv => (kv.1, (dictLookup b kv.1).getD kv.2)) ++
    b.filter (fun kv => (dictLookup a kv.1).isNone)

/-- `sorted(d.items(), reverse=True)` for a key-unique mapping: sort the
pairs by key, descending (values only break exact-key ties, which cannot
occur in a dict). -/
def sortByKeyDesc {α : Type _} (l : List (String × α)) : List (String × α) :=
  List.insertionSort keyDescRel l

/-- `integrate_new_membership_lists` from scan_lists.py, generic over the
table type and taking `data_cleaning` as the `clean` collaborator:
`new_lists = {k: v for k, v in memb_list_zips.items() if k not in
pickled_lists}`, then cleaning of the new lists, then
`dict(sorted((new_lists | pickled_lists).items(), reverse=True))`. -/
def integrate_new_membership_lists {α : Type _} (clean : α → α)
    (memb_list_zips pickled_lists : List (String × α)) : List (String × α) :=
  let new_lists :=
    memb_list_zips.filter (fun kv => (dictLookup pickled_lists kv.1).isNone)
  let new_lists := new_lists.map (fun kv => (kv.1, clean kv.2))
  sortByKeyDesc (pyDictUnion new_lists pickled_lists)

/-- C1 counterexample: for a date present in both the fresh scan and the
cache, the merged output carries the cached table (2), not the freshly
cleaned table (the fresh table 1 cleaned to 101): the code filters
already-cached dates out of the fresh scan before cleaning, so the cache
wins unconditionally and no trust-cache mode exists to toggle it. -/
theorem C1_merge_counterexample :
    integrate_new_membership_lists (fun t => t + 100) [("2024-01-01", 1)]
        [("2024-01-01", 2)] = [("2024-01-01", 2)] ∧
    (2 : Nat) ≠ 101 := by
  exact ⟨by rfl, by decide⟩

/-- C1 amended: for every date with an entry in the persisted cache —
in particular every date present in both the cache and the fresh scan —
the merged output of `integrate_new_membership_lists` maps that date to
the cached table; cache preference is unconditional. -/
theorem C1_cache_wins {α : Type _} (clean : α → α)
    (zips pickled : List (String × α))
    (hz : (zips.map Prod.fst).Nodup) (hp : (pickled.map Prod.fst).Nodup)
    (k : String) (t : α) (hk : dictLookup pickled k = some t) :
    dictLookup (integrate_new_membership_lists clean zips pickled) k = some t := by
  classical
  set new0 := zips.filter (fun kv => (dictLookup pickled kv.1).isNone) with hnew0
  set new1 := new0.map (fun kv => (kv.1, clean kv.2)) with hnew1
  have hkeys1 : new1.map Prod.fst = new0.map Prod.fst := by
    simp [hnew1, List.map_map, Function.comp]
  have hnone1 : dictLookup new1 k = none := by
    rw [dictLookup_eq_none_iff]
    intro kv hkv hkeq
    rcases List.mem_map.mp hkv with ⟨kv0, hkv0, rfl⟩
    have hn := List.of_mem_filter hkv0
    rw [hkeq] at hn
    rw [hk] at hn
    simp at hn
  set amap := new1.map (fun kv => (kv.1, (dictLookup pickled kv.1).getD kv.2)) with hamap
  have hkeysa : amap.map Prod.fst = new1.map Prod.fst := by
    simp [hamap, List.map_map, Function.comp]
  have hnonea : dictLookup amap k = none := by
    rw [dictLookup_eq_none_iff]
    intro kv hkv hkeq
    rcases List.mem_map.mp hkv with ⟨kv0, hkv0, rfl⟩
    exact ((dictLookup_eq_none_iff new1 k).mp hnone1) kv0 hkv0 hkeq
  have hu : dictLookup (pyDictUnion new1 pickled) k = some t := by
    unfold pyDictUnion
    rw [dictLookup_append_of_none _ hnonea]
    rw [dictLookup_filter_keep (fun kv _ hkeq => by rw [hkeq, hnone1]; rfl)]
    exact hk
  have humem : (k, t) ∈ pyDictUnion new1 pickled := dictLookup_some_mem hu
  have hukeys : (pyDictUnion new1 pickled).map Prod.fst =
      new1.map Prod.fst ++
        (pickled.filter (fun kv => (dictLookup new1 kv.1).isNone)).map Prod.fst := by
    simp [pyDictUnion, List.map_map, Function.comp]
  have hund : ((pyDictUnion new1 pickled).map Prod.fst).Nodup := by
    rw [hukeys, hkeys1]
    refine List.Nodup.append ?_ ?_ ?_
    · exact ((List.filter_sublist zips).map Prod.fst).nodup hz
    · exact ((List.filter_sublist pickled).map Prod.fst).nodup hp
    · intro x hx0 hx1
      rcases List.mem_map.mp hx0 with ⟨kv0, hkv0, rfl⟩
      rcases List.mem_map.mp hx1 with ⟨kv1, hkv1, hkeq⟩
      have hn1 := List.of_mem_filter hkv1
      rw [hkeq] at hn1
      rw [Option.isNone_iff_eq_none, dictLookup_eq_none_iff] at hn1
      exact hn1 (kv0.1, clean kv0.2)
        (List.mem_map_of_mem (fun kv => (kv.1, clean kv.2)) hkv0) rfl
  have hperm : List.Perm (sortByKeyDesc (pyDictUnion new1 pickled))
      (pyDictUnion new1 pickled) :=
    List.perm_insertionSort _ _
  have hsmem : (k, t) ∈ sortByKeyDesc (pyDictUnion new1 pickled) :=
    hperm.mem_iff.mpr humem
  have hsnd : ((sortByKeyDesc (pyDictUnion new1 pickled)).map Prod.fst).Nodup :=
    ((hperm.map Prod.fst).nodup_iff).mpr hund
  exact dictLookup_of_mem_nodup hsmem hsnd

/-- Witness for C1: the date 2024-01-01 is in both the fresh scan and the
cache; the merged mapping returns the cached table 7. -/
theorem C1_cache_wins_witness :
    dictLookup
      (integrate_new_membership_lists Nat.succ
        [("2024-01-01", 5), ("2024-02-01", 6)] [("2024-01-01", 7)])
      "2024-01-01" = some 7 :=
  C1_cache_wins Nat.succ [("2024-01-01", 5), ("2024-02-01", 6)] [("2024-01-01", 7)]
    (by decide) (by decide) "2024-01-01" 7 (by rfl)

/-- Python `str.split(sep)` for a single-character separator: the
segments between occurrences of the separator (always nonempty as a
list). -/
def splitOnChar (c : Char) : List Char → List (List Char)
  | [] => [[]]
  | x :: xs =>
      match splitOnChar c xs with
      | [] => [[]]
      | h :: t => if x = c then [] :: h :: t else (x :: h) :: t

/-- `Path(zip_file).name`: the final path component after the last
slash. -/
def pyBasename (p : String) : String :=
  String.mk ((splitOnChar '/' p.data).getLastD [])

/-- `PurePath(filename).stem`: the name with its final extension removed;
pathlib strips at the last dot only when it is neither the first nor the
last character of the name. -/
def pyStem (s : String) : String :=
  let ds := s.data
  match ((List.range ds.length).filter (fun i => ds.getD i ' ' = '.')).getLast? with
  | some i => if 0 < i ∧ i < ds.length - 1 then String.mk (ds.take i) else s
  | none => s

/-- `str(...).split("_")[-1]`: the final underscore-delimited segment. -/
def lastSegmentUnderscore (s : String) : String :=
  String.mk ((splitOnChar '_' s.data).getLastD [])

/-- Numeric value of an ASCII digit character. -/
def digitVal (c : Char) : Nat := c.toNat - 48

/-- The number denoted by a list of ASCII digits. -/
def digitsToNat (l : List Char) : Nat :=
  l.foldl (fun a c => a * 10 + digitVal c) 0

/-- Gregorian leap-year rule, as used by `datetime`. -/
def isLeapYear (y : Nat) : Bool :=
  y % 4 == 0 && (y % 100 != 0 || y % 400 == 0)

/-- Days in a month of the proleptic Gregorian calendar. -/
def daysInMonth (y m : Nat) : Nat :=
  if m = 2 then (if isLeapYear y then 29 else 28)
  else if m = 4 ∨ m = 6 ∨ m = 9 ∨ m = 11 then 30
  else 31

/-- `pd.to_datetime(s, format="%Y%m%d")`: exactly eight ASCII digits
forming a valid calendar date (datetime years run from 1), else a
ValueError that the caller catches (here `none`). -/
def parseYYYYMMDD (s : String) : Option (Nat × Nat × Nat) :=
  match s.data with
  | [y1, y2, y3, y4, m1, m2, d1, d2] =>
      if ([y1, y2, y3, y4, m1, m2, d1, d2].all Char.isDigit) then
        let y := digitsToNat [y1, y2, y3, y4]
        let m := digitsToNat [m1, m2]
        let d := digitsToNat [d1, d2]
        if 1 ≤ y ∧ 1 ≤ m ∧ m ≤ 12 ∧ 1 ≤ d ∧ d ≤ daysInMonth y m then some (y, m, d)
        else none
      else none
  | _ => none

/-- `date(y, m, d).isoformat()`: `YYYY-MM-DD`, zero-padded. -/
def isoformat (y m d : Nat) : String :=
  zfill 4 (String.mk (Nat.toDigits 10 y)) ++ "-" ++
    zfill 2 (String.mk (Nat.toDigits 10 m)) ++ "-" ++
    zfill 2 (String.mk (Nat.toDigits 10 d))

/-- The date-derivation chain of `scan_all_membership_lists`:
`filename = Path(zip_file).name`, `date_from_filename =
str(PurePath(filename).stem).split("_")[-1]`, then
`pd.to_datetime(date_from_filename, format="%Y%m%d").date().isoformat()`;
`none` models the caught IndexError/ValueError (file skipped). -/
def list_date_iso (zip_path : String) : Option String :=
  (parseYYYYMMDD (lastSegmentUnderscore (pyStem (pyBasename zip_path)))).map
    (fun ymd => isoformat ymd.1 ymd.2.1 ymd.2.2)

/-- Python `dict` assignment `d[k] = v`: update the existing entry in
place, else append. -/
def dictInsert {α : Type _} : List (String × α) → String → α → List (String × α)
  | [], k, v => [(k, v)]
  | kv :: rest, k, v => if kv.1 = k then (k, v) :: rest else kv :: dictInsert rest k v

/-- `scan_all_membership_lists` from scan_lists.py, over an abstract
filesystem (a list of archive paths with the table each contains):
`sorted(glob(...), reverse=True)`, then for each file derive the date
from the filename and store the table under it, skipping files whose
names yield no date. -/
def scan_all_membership_lists {α : Type _} (files : List (String × α)) :
    List (String × α) :=
  (sortByKeyDesc files).foldl
    (fun memb_lists pt =>
      match list_date_iso pt.1 with
      | some d => dictInsert memb_lists d pt.2
      | none => memb_lists) []

/-- Looking up after a `dictInsert` sees the inserted value at its key
and is otherwise unchanged. -/
theorem dictLookup_dictInsert {α : Type _} (l : List (String × α)) (k : String)
    (v : α) (key : String) :
    dictLookup (dictInsert l k v) key = if key = k then some v else dictLookup l key := by
  induction l with
  | nil =>
      simp only [dictInsert, dictLookup]
      by_cases h : k = key
      · rw [if_pos h, if_pos h.symm]
      · rw [if_neg h, if_neg (fun hh => h hh.symm)]
  | cons kv rest ih =>
      simp only [dictInsert]
      by_cases h1 : kv.1 = k
      · rw [if_pos h1]
        simp only [dictLookup]
        by_cases h2 : k = key
        · rw [if_pos h2, if_pos h2.symm]
        · rw [if_neg h2, if_neg (fun hh => h2 hh.symm),
            if_neg (fun hh : kv.1 = key => h2 (h1 ▸ hh))]
      · rw [if_neg h1]
        simp only [dictLookup]
        by_cases h3 : kv.1 = key
        · rw [if_pos h3, if_pos h3, if_neg (fun hh : key = k => h1 (h3.trans hh))]
        · rw [if_neg h3, if_neg h3, ih]

/-- The lookup of a date in the scan fold is the value of the last
processed file deriving that date (or the initial binding). -/
theorem lookup_scan_foldl {α : Type _} (l : List (String × α))
    (acc : List (String × α)) (d : String) :
    dictLookup
      (l.foldl (fun memb_lists pt =>
        match list_date_iso pt.1 with
        | some dd => dictInsert memb_lists dd pt.2
        | none => memb_lists) acc) d =
    l.foldl (fun cur pt => if list_date_iso pt.1 = some d then some pt.2 else cur)
      (dictLookup acc d) := by
  induction l generalizing acc with
  | nil => rfl
  | cons pt rest ih =>
      simp only [List.foldl_cons]
      rw [ih]
      congr 1
      cases hdd : list_date_iso pt.1 with
      | none => simp
      | some dd =>
          rw [dictLookup_dictInsert]
          by_cases h : dd = d
          · subst h
            simp
          · rw [if_neg (fun hh : d = dd => h hh.symm),
              if_neg (fun hh : some dd = some d => h (Option.some.injEq dd d ▸ hh))]

/-- A block of files none of which derives the date leaves the running
value unchanged. -/
theorem foldl_no_match {α : Type _} (l : List (String × α)) (c : Option α) (d : String)
    (h : ∀ pt ∈ l, list_date_iso pt.1 ≠ some d) :
    l.foldl (fun cur pt => if list_date_iso pt.1 = some d then some pt.2 else cur) c = c := by
  induction l generalizing c with
  | nil => rfl
  | cons pt rest ih =>
      simp only [List.foldl_cons]
      rw [if_neg (h pt (List.mem_cons_self _ _))]
      exact ih _ (fun q hq => h q (List.mem_cons_of_mem _ hq))

/-- C10: archive discovery is deterministic under same-date collisions.
`scan_all_membership_lists` iterates the glob results in reverse
lexicographic path order, and each store overwrites the date's previous
binding, so the table kept for a date is the one from the
lexicographically smallest path deriving that date — a function of the
file set alone, independent of filesystem enumeration order. -/
theorem C10_smallest_path_wins {α : Type _} (files : List (String × α))
    (hnd : (files.map Prod.fst).Nodup) (p : String) (t : α) (d : String)
    (hmem : (p, t) ∈ files) (hd : list_date_iso p = some d)
    (hmin : ∀ q u, (q, u) ∈ files → list_date_iso q = some d → pathLe p q = true) :
    dictLookup (scan_all_membership_lists files) d = some t := by
  classical
  have hperm : List.Perm (sortByKeyDesc files) files := List.perm_insertionSort _ _
  have hsnd : ((sortByKeyDesc files).map Prod.fst).Nodup :=
    ((hperm.map Prod.fst).nodup_iff).mpr hnd
  have hsmem : (p, t) ∈ sortByKeyDesc files := hperm.mem_iff.mpr hmem
  have hsorted : List.Pairwise keyDescRel (sortByKeyDesc files) :=
    List.sorted_insertionSort keyDescRel files
  obtain ⟨l1, l2, hsplit⟩ := List.append_of_mem hsmem
  unfold scan_all_membership_lists
  rw [lookup_scan_foldl, hsplit, List.foldl_append]
  simp only [List.foldl_cons]
  rw [if_pos hd]
  apply foldl_no_match
  intro q hq hqd
  have hq_sorted : keyDescRel (p, t) q := by
    have hps := hsplit ▸ hsorted
    have h2 := (List.pairwise_append.mp hps).2.1
    exact (List.pairwise_cons.mp h2).1 q hq
  have hq_files : q ∈ files := by
    refine hperm.mem_iff.mp ?_
    rw [hsplit]
    exact List.mem_append.mpr (Or.inr (List.mem_cons_of_mem _ hq))
  have hq_min : pathLe p q.1 = true := by
    refine hmin q.1 q.2 ?_ hqd
    rwa [Prod.mk.eta]
  have heq : q.1 = p := by
    have hdata : q.1.data = p.data := charListLe_antisymm hq_sorted hq_min
    exact String.ext hdata
  have hnd2 : ((l1 ++ (p, t) :: l2).map Prod.fst).Nodup := hsplit ▸ hsnd
  rw [List.map_append, List.map_cons] at hnd2
  have hnotin := (List.nodup_append.mp hnd2).2.1
  have hpnot := (List.nodup_cons.mp hnotin).1
  have hqmem : q.1 ∈ l2.map Prod.fst := List.mem_map_of_mem Prod.fst hq
  rw [heq] at hqmem
  exact hpnot hqmem

/-- Witness for C10: two archives derive the same date 2024-01-01; the
scan keeps the table (2) of the lexicographically smallest path. -/
theorem C10_smallest_path_wins_witness :
    dictLookup
      (scan_all_membership_lists
        [("lists/fake_membership_list_20240101.zip", 1),
          ("lists/a_list_20240101.zip", 2)])
      "2024-01-01" = some 2 := by
  refine C10_smallest_path_wins
    [("lists/fake_membership_list_20240101.zip", 1),
      ("lists/a_list_20240101.zip", 2)]
    (by decide) "lists/a_list_20240101.zip" 2 "2024-01-01"
    (by decide) (by decide) ?_
  intro q u hqu hqd
  simp only [List.mem_cons, List.not_mem_nil, or_false] at hqu
  rcases hqu with h | h
  · simp only [Prod.mk.injEq] at h
    obtain ⟨rfl, rfl⟩ := h
    decide
  · simp only [Prod.mk.injEq] at h
    obtain ⟨rfl, rfl⟩ := h
    decide

/-- A membership record as seen by the retention engine: the cohort key
(`join_year`, an integer period) and the tenure length
(`membership_length_years` or `_months`, an integer). -/
def CohortRec : Type := Int × Int

/-- The exact-tenure pivot cell `pivot_table(index=[join_year],
columns=[length], values=zip, aggfunc=len, fill_value=0)`: the number of
records with the given cohort and tenure. -/
def exact_count (recs : List (Int × Int)) (c t : Int) : Nat :=
  (recs.filter (fun r => decide (r.1 = c ∧ r.2 = t))).length

/-- The sorted, duplicate-free axis a pandas pivot builds from the
observed values of a column. -/
def sortedDedup (l : List Int) : List Int :=
  List.insertionSort (· ≤ ·) l.dedup

/-- The pivot's column axis: the distinct observed tenure lengths,
ascending. -/
def pivot_cols (recs : List (Int × Int)) : List Int :=
  sortedDedup (recs.map Prod.snd)

/-- The pivot's row axis: the distinct observed cohorts, ascending. -/
def pivot_rows (recs : List (Int × Int)) : List Int :=
  sortedDedup (recs.map Prod.fst)

/-- `DataFrame.cumsum()` down a column: running partial sums. -/
def cumsum : List Nat → List Nat
  | [] => []
  | x :: xs => x :: (cumsum xs).map (fun v => x + v)

/-- One cohort's column of `retention_origin` before the zero-replacement:
`pivot.transpose()[::-1].cumsum()[::-1]` read at that cohort, i.e. the
exact counts over the tenure axis, reversed, cumulatively summed, and
reversed back. -/
def retention_col_values (recs : List (Int × Int)) (c : Int) : List Nat :=
  (cumsum ((pivot_cols recs).reverse.map (fun t => exact_count recs c t))).reverse

/-- `retention_origin` from retention.py: the count pivot, transposed,
reversed along the tenure axis, cumulatively summed, reversed back,
transposed, with `replace(to_replace=0, value=None)`; one row of
`Option` cells per cohort. -/
def retention_origin (recs : List (Int × Int)) : List (Int × List (Option Nat)) :=
  (pivot_rows recs).map (fun c =>
    (c, (retention_col_values recs c).map (fun v => if v = 0 then none else some v)))

/-- `pivot.sum()` for one cohort column of the transposed pivot: the
cohort's total initial size. -/
def cohort_total (recs : List (Int × Int)) (c : Int) : Nat :=
  ((pivot_cols recs).map (fun t => exact_count recs c t)).sum

/-- One cohort's column of `retention_pct_origin` before the
zero-replacement: `(pivot.cumsum() / pivot.sum())[::-1]` read at that
cohort, cells as exact rationals. -/
def retention_pct_col_values (recs : List (Int × Int)) (c : Int) : List ℚ :=
  ((cumsum ((pivot_cols recs).reverse.map (fun t => exact_count recs c t))).map
    (fun (v : Nat) => (v : ℚ) / (cohort_total recs c : ℚ))).reverse

/-- `retention_pct_origin` from retention.py: the same cumulative pivot
divided per cohort column by the cohort total, reversed back, transposed,
with `replace(to_replace=0, value=None)`. -/
def retention_pct_origin (recs : List (Int × Int)) : List (Int × List (Option ℚ)) :=
  (pivot_rows recs).map (fun c =>
    (c, (retention_pct_col_values recs c).map (fun v => if v = 0 then none else some v)))

/-- The number of records of a cohort whose tenure is at least `t` — the
spec's description of a retention cell ("members from this cohort who
reached at least tenure t"), stated directly for comparison with the
pivot pipeline. -/
def retained_at_least (recs : List (Int × Int)) (c t : Int) : Nat :=
  (recs.filter (fun r => decide (r.1 = c ∧ t ≤ r.2))).length

/-- `cumsum` preserves length. -/
theorem cumsum_length : ∀ l : List Nat, (cumsum l).length = l.length
  | [] => rfl
  | x :: xs => by simp [cumsum, cumsum_length xs]

/-- The `k`-th running sum is the sum of the first `k+1` entries. -/
theorem cumsum_get? : ∀ (l : List Nat) (k : Nat), k < l.length →
    (cumsum l).get? k = some ((l.take (k + 1)).sum)
  | [], k, h => by simp at h
  | x :: xs, 0, _ => by simp [cumsum]
  | x :: xs, k + 1, h => by
      have hk : k < xs.length := by simpa using Nat.lt_of_succ_lt_succ h
      simp only [cumsum, List.get?_cons_succ, List.get?_map, cumsum_get? xs k hk,
        List.take_succ_cons, List.sum_cons]
      rfl

/-- Counts of a cohort at each of a set of distinct tenures add up to the
count of its records with tenure in that set. -/
theorem sum_exact_merge (c t0 : Int) (L : List Int) (hnot : t0 ∉ L) :
    ∀ recs : List (Int × Int),
      (recs.filter (fun r => decide (r.1 = c ∧ r.2 = t0))).length +
        (recs.filter (fun r => decide (r.1 = c ∧ r.2 ∈ L))).length =
        (recs.filter (fun r => decide (r.1 = c ∧ r.2 ∈ t0 :: L))).length
  | [] => rfl
  | r :: rs => by
      have ih := sum_exact_merge c t0 L hnot rs
      simp only [List.filter_cons]
      by_cases h1 : r.1 = c
      · by_cases h2 : r.2 = t0
        · have h3 : r.2 ∉ L := h2 ▸ hnot
          rw [if_pos (by simp [h1, h2]), if_neg (by simp [h3]),
            if_pos (by simp [h1, List.mem_cons, h2])]
          simp only [List.length_cons]
          omega
        · by_cases h3 : r.2 ∈ L
          · rw [if_neg (by simp [h2]), if_pos (by simp [h1, h3]),
              if_pos (by simp [h1, List.mem_cons, h3])]
            simp only [List.length_cons]
            omega
          · rw [if_neg (by simp [h2]), if_neg (by simp [h3]),
              if_neg (by simp [List.mem_cons, h2, h3])]
            exact ih
      · rw [if_neg (by simp [h1]), if_neg (by simp [h1]), if_neg (by simp [h1])]
        exact ih

/-- Summing a cohort's exact counts over a duplicate-free list of
tenures counts its records whose tenure lies in the list. -/
theorem sum_exact_eq (recs : List (Int × Int)) (c : Int) :
    ∀ L : List Int, L.Nodup →
      ((L.map (fun t => exact_count recs c t)).sum =
        (recs.filter (fun r => decide (r.1 = c ∧ r.2 ∈ L))).length)
  | [], _ => by simp
  | t0 :: L, hnd => by
      rw [List.map_cons, List.sum_cons,
        sum_exact_eq recs c L (List.nodup_cons.mp hnd).2]
      exact sum_exact_merge c t0 L (List.nodup_cons.mp hnd).1 recs

/-- The pivot axis is duplicate-free. -/
theorem sortedDedup_nodup (l : List Int) : (sortedDedup l).Nodup :=
  ((List.perm_insertionSort _ _).nodup_iff).mpr l.nodup_dedup

/-- The pivot axis is sorted ascending. -/
theorem sortedDedup_sorted (l : List Int) : (sortedDedup l).Sorted (· ≤ ·) :=
  List.sorted_insertionSort _ _

/-- Membership in the pivot axis is membership among the observed values. -/
theorem mem_sortedDedup (l : List Int) (x : Int) : x ∈ sortedDedup l ↔ x ∈ l :=
  (List.perm_insertionSort _ _).mem_iff.trans (List.mem_dedup)

/-- The pivot axis is strictly increasing. -/
theorem sortedDedup_pairwise_lt (l : List Int) : (sortedDedup l).Pairwise (· < ·) :=
  ((sortedDedup_sorted l).and (sortedDedup_nodup l)).imp
    (fun h => lt_of_le_of_ne h.1 h.2)

/-- In a strictly increasing list, the tail from position `k` holds
exactly the members that are at least the element at `k`. -/
theorem mem_drop_iff_of_get (L : List Int) (hlt : L.Pairwise (· < ·)) (k : Nat) (t : Int)
    (hk : L.get? k = some t) (x : Int) (hx : x ∈ L) : x ∈ L.drop k ↔ t ≤ x := by
  obtain ⟨hklen, hget⟩ := List.get?_eq_some.mp hk
  constructor
  · intro hmem
    obtain ⟨⟨j, hj⟩, hxe⟩ := List.mem_iff_get.mp hmem
    have hget2 : L.get? (k + j) = some x := by
      rw [← List.get?_drop L k j, List.get?_eq_get hj, hxe]
    obtain ⟨hkj, hxg⟩ := List.get?_eq_some.mp hget2
    rcases Nat.eq_zero_or_pos j with hj0 | hj0
    · subst hj0
      rw [Nat.add_zero] at hget2
      have hsome := hk.symm.trans hget2
      exact (Option.some.injEq t x ▸ hsome).le
    · have hlt2 : L.get ⟨k, hklen⟩ < L.get ⟨k + j, hkj⟩ :=
        List.pairwise_iff_get.mp hlt ⟨k, hklen⟩ ⟨k + j, hkj⟩ (by simpa using hj0)
      rw [hget, hxg] at hlt2
      exact hlt2.le
  · intro htx
    obtain ⟨⟨i, hi⟩, hxe⟩ := List.mem_iff_get.mp hx
    by_cases hik : i < k
    · have hxt : x < t := by
        have := List.pairwise_iff_get.mp hlt ⟨i, hi⟩ ⟨k, hklen⟩ hik
        rwa [hxe, hget] at this
      exact absurd htx (not_le.mpr hxt)
    · push_neg at hik
      have hgd : (L.drop k).get? (i - k) = some x := by
        rw [List.get?_drop]
        have hik2 : k + (i - k) = i := by omega
        rw [hik2, List.get?_eq_get hi, hxe]
      exact List.get?_mem hgd

/-- The value the cumulative pivot of `retention_origin` holds at column
position `k` (tenure `t`) for a cohort is the number of that cohort's
records with tenure at least `t`. -/
theorem retention_col_values_get? (recs : List (Int × Int)) (c t : Int) (k : Nat)
    (hk : (pivot_cols recs).get? k = some t) :
    (retention_col_values recs c).get? k = some (retained_at_least recs c t) := by
  have hklen : k < (pivot_cols recs).length := (List.get?_eq_some.mp hk).1
  have hMlen : ((pivot_cols recs).reverse.map (fun t2 => exact_count recs c t2)).length =
      (pivot_cols recs).length := by simp
  have hclen :
      (cumsum ((pivot_cols recs).reverse.map (fun t2 => exact_count recs c t2))).length =
      (pivot_cols recs).length := by rw [cumsum_length, hMlen]
  have hkrev : k < (cumsum ((pivot_cols recs).reverse.map
      (fun t2 => exact_count recs c t2))).length := by rw [hclen]; exact hklen
  rw [retention_col_values, List.get?_reverse hkrev, hclen]
  have hidx : (pivot_cols recs).length - 1 - k < (pivot_cols recs).length := by omega
  rw [cumsum_get? _ _ (by rw [hMlen]; exact hidx)]
  have hidx2 : (pivot_cols recs).length - 1 - k + 1 = (pivot_cols recs).length - k := by
    omega
  rw [hidx2]
  congr 1
  rw [show ((pivot_cols recs).reverse.map (fun t2 => exact_count recs c t2)) =
      ((pivot_cols recs).reverse).map (fun t2 => exact_count recs c t2) from rfl]
  rw [(List.map_take (fun t2 => exact_count recs c t2) (pivot_cols recs).reverse
    ((pivot_cols recs).length - k)).symm.trans rfl]
  rw [List.take_reverse]
  have hdk : (pivot_cols recs).length - ((pivot_cols recs).length - k) = k := by omega
  rw [hdk, List.map_reverse, List.sum_reverse]
  rw [sum_exact_eq recs c ((pivot_cols recs).drop k)
    ((sortedDedup_nodup _).sublist (List.drop_sublist k (pivot_cols recs)))]
  rw [retained_at_least]
  congr 1
  apply List.filter_congr
  intro r hr
  by_cases hrc : r.1 = c
  · have hrmem : r.2 ∈ pivot_cols recs :=
      (mem_sortedDedup _ _).mpr (List.mem_map_of_mem Prod.snd hr)
    have hiff := mem_drop_iff_of_get (pivot_cols recs) (sortedDedup_pairwise_lt _)
      k t hk r.2 hrmem
    simp [hrc, hiff]
  · simp [hrc]

/-- Pairing keys with values and projecting the keys back is the
identity. -/
theorem map_fst_map_pair {β : Type _} (l : List Int) (g : Int → β) :
    (l.map (fun c => (c, g c))).map Prod.fst = l := by
  induction l with
  | nil => rfl
  | cons a l ih => simp [ih]

/-- C6: in the pivot produced by `retention_origin`, the cell of cohort
`c` at the column of tenure `t` equals the number of records of that
cohort whose tenure is at least `t` (the right-to-left cumulative sum of
the exact-tenure counts), and a zero count is stored as the missing
marker `none` rather than zero. -/
theorem C6_retention_cell (recs : List (Int × Int)) (c t : Int) (k : Nat)
    (hk : (pivot_cols recs).get? k = some t) (hc : c ∈ pivot_rows recs) :
    (dictLookup (retention_origin recs) c).bind (fun row => row.get? k) =
      some (if retained_at_least recs c t = 0 then none
        else some (retained_at_least recs c t)) := by
  have hmem : (c, (retention_col_values recs c).map
      (fun v => if v = 0 then none else some v)) ∈ retention_origin recs :=
    List.mem_map_of_mem _ hc
  have hkeys : (retention_origin recs).map Prod.fst = pivot_rows recs :=
    map_fst_map_pair _ _
  have hnd : ((retention_origin recs).map Prod.fst).Nodup := by
    rw [hkeys]
    exact sortedDedup_nodup _
  rw [dictLookup_of_mem_nodup hmem hnd]
  simp only [Option.some_bind]
  rw [List.get?_map, retention_col_values_get? recs c t k hk]
  rfl

/-- Witness for C6: in the snapshot with records (2020, 0), (2020, 1),
(2021, 0), the 2020 cohort's cell at tenure 1 is the count of its
records with tenure at least 1, namely 1. -/
theorem C6_retention_cell_witness :
    (dictLookup (retention_origin [((2020 : Int), (0 : Int)), (2020, 1), (2021, 0)])
        2020).bind (fun row => row.get? 1) = some (some 1) := by
  have h := C6_retention_cell [((2020 : Int), (0 : Int)), (2020, 1), (2021, 0)] 2020 1 1
    (by decide) (by decide)
  rw [h]
  decide

/-- A running sum never exceeds the total sum. -/
theorem mem_cumsum_le_sum : ∀ (l : List Nat) (s : Nat), s ∈ cumsum l → s ≤ l.sum
  | [], s, h => by simp [cumsum] at h
  | x :: xs, s, h => by
      simp only [cumsum, List.mem_cons, List.mem_map] at h
      rcases h with rfl | ⟨s2, hs2, rfl⟩
      · simp only [List.sum_cons]
        exact Nat.le_add_right _ _
      · have := mem_cumsum_le_sum xs s2 hs2
        simp only [List.sum_cons]
        omega

/-- Every value of a `retention_pct_origin` column that is not the
replaced zero lies in [0, 1]: it is a partial sum of the cohort's counts
divided by the cohort's total. -/
theorem retention_pct_mem_bounds (recs : List (Int × Int)) (c : Int) (v0 : ℚ)
    (hmem : v0 ∈ retention_pct_col_values recs c) (h0 : v0 ≠ 0) : 0 ≤ v0 ∧ v0 ≤ 1 := by
  rw [retention_pct_col_values, List.mem_reverse] at hmem
  obtain ⟨s, hs, hgs⟩ := List.mem_map.mp hmem
  have hsc : s ∈ cumsum ((pivot_cols recs).reverse.map (fun t2 => exact_count recs c t2)) :=
    hs
  have hsle : s ≤ ((pivot_cols recs).reverse.map (fun t2 => exact_count recs c t2)).sum :=
    mem_cumsum_le_sum _ s hsc
  have hsum : ((pivot_cols recs).reverse.map (fun t2 => exact_count recs c t2)).sum =
      cohort_total recs c := by
    rw [List.map_reverse, List.sum_reverse]
    rfl
  rw [hsum] at hsle
  have htne : cohort_total recs c ≠ 0 := by
    intro hzz
    apply h0
    rw [← hgs, hzz]
    simp
  have htpos : (0 : ℚ) < (cohort_total recs c : ℚ) := by
    exact_mod_cast Nat.pos_of_ne_zero htne
  constructor
  · rw [← hgs]
    exact div_nonneg (Nat.cast_nonneg s) (le_of_lt htpos)
  · rw [← hgs, div_le_one htpos]
    exact_mod_cast hsle

/-- C7: every populated (non-missing) cell of the percentage pivot
produced by `retention_pct_origin` — the cohort's cumulative retained
count divided by the cohort's total initial size — lies in [0, 1]. -/
theorem C7_retention_pct_bounds (recs : List (Int × Int)) (c : Int) (k : Nat) (v : ℚ)
    (hv : (dictLookup (retention_pct_origin recs) c).bind (fun row => row.get? k) =
      some (some v)) :
    0 ≤ v ∧ v ≤ 1 := by
  cases hlook : dictLookup (retention_pct_origin recs) c with
  | none =>
      rw [hlook] at hv
      simp at hv
  | some row =>
      rw [hlook] at hv
      simp only [Option.some_bind] at hv
      have hmem := dictLookup_some_mem hlook
      rw [retention_pct_origin] at hmem
      obtain ⟨c0, hc0, heq⟩ := List.mem_map.mp hmem
      have hc0c : c0 = c := congrArg Prod.fst heq
      have hrow : (retention_pct_col_values recs c0).map
          (fun v2 => if v2 = 0 then none else some v2) = row := congrArg Prod.snd heq
      rw [← hrow, List.get?_map] at hv
      cases hget : (retention_pct_col_values recs c0).get? k with
      | none =>
          rw [hget] at hv
          simp at hv
      | some v0 =>
          rw [hget] at hv
          have hv2 : (if v0 = 0 then none else some v0) = some v := by
            simpa using hv
          by_cases h0 : v0 = 0
          · rw [if_pos h0] at hv2
            exact absurd hv2 (by simp)
          · rw [if_neg h0] at hv2
            have hvv : v0 = v := by simpa using hv2
            subst hvv
            exact retention_pct_mem_bounds recs c0 v0 (List.get?_mem hget) h0

/-- Witness for C7: in the snapshot with records (2020, 0), (2020, 1),
(2021, 0), the 2020 cohort's percentage cell at tenure 1 is 1/2, which
lies in [0, 1]. -/
theorem C7_retention_pct_bounds_witness :
    0 ≤ (1 / 2 : ℚ) ∧ (1 / 2 : ℚ) ≤ 1 := by
  apply C7_retention_pct_bounds [((2020 : Int), (0 : Int)), (2020, 1), (2021, 0)] 2020 1
    (1 / 2)
  have hcols : pivot_cols [((2020 : Int), (0 : Int)), (2020, 1), (2021, 0)] = [0, 1] := by
    decide
  have hrows : pivot_rows [((2020 : Int), (0 : Int)), (2020, 1), (2021, 0)] =
      [2020, 2021] := by decide
  have hvals : retention_pct_col_values [((2020 : Int), (0 : Int)), (2020, 1), (2021, 0)]
      2020 = [1, 1 / 2] := by
    rw [retention_pct_col_values, hcols]
    norm_num [cumsum, exact_count, cohort_total, hcols]
  rw [retention_pct_origin, hrows]
  norm_num [dictLookup, hvals]
